import Mathlib

/-!
Verification of the Remote Evaluation Bridge of `org-roam-ai`
(`src/mcp/src/org_roam_mcp/emacs_client.py` and
`src/mcp/src/org_roam_mcp/server.py`), as a shallow embedding over
`List Char` strings.  Python text is modelled as `List Char`; Python's
sequential single-character `str.replace` passes become `replaceChar`;
`json.loads` is modelled by a strict fuel-indexed recursive-descent
parser `pyLoads`; fallible code returns `Option` / `Except` / tagged
outcome types.
-/

namespace OrgRoamAI

/-! ## Basic string helpers -/

/-- The backquote character (code point 96). -/
def bq : Char := Char.ofNat 96

/-- Python's `s.replace(pat, rep)` for a one-character pattern `pat`:
every occurrence of `pat` is replaced by `rep`, left to right. -/
def replaceChar (pat : Char) (rep : List Char) : List Char → List Char
  | [] => []
  | c :: cs => (if c = pat then rep else [c]) ++ replaceChar pat rep cs

/-- Python whitespace as stripped by `str.strip()` (ASCII fragment). -/
def isPyWs (c : Char) : Bool :=
  c = ' ' ∨ c = '\t' ∨ c = '\n' ∨ c = '\r' ∨ c = '\x0b' ∨ c = '\x0c'

/-- Python's `str.strip()`. -/
def pyStrip (s : List Char) : List Char :=
  ((s.dropWhile isPyWs).reverse.dropWhile isPyWs).reverse

/-- Decimal digits of a natural number, as Python's `str(i)` renders it. -/
def natToStr (n : Nat) : List Char := (Nat.repr n).toList

/-- Python's `str(i)` for an integer. -/
def intToStr (i : Int) : List Char :=
  match i with
  | .ofNat n => natToStr n
  | .negSucc n => '-' :: natToStr (n + 1)

/-! ## Escaper (`_escape_for_elisp`, emacs_client.py lines 100-116)

The source applies four `str.replace` passes in order: backslash,
double quote, newline, tab. -/

/-- `EmacsClient._escape_for_elisp`: backslash, then quote, then newline,
then tab, each replaced by its two-character escape. -/
def escape_for_elisp (s : List Char) : List Char :=
  replaceChar '\t' ['\\', 't']
    (replaceChar '\n' ['\\', 'n']
      (replaceChar '"' ['\\', '"']
        (replaceChar '\\' ['\\', '\\'] s)))

/-- The shell-escaping pass inside `EmacsClient.eval_elisp`
(emacs_client.py lines 357-362): backslash, double quote, backtick and
dollar sign each get a protecting backslash, in that order. -/
def shellEscape (s : List Char) : List Char :=
  replaceChar '$' ['\\', '$']
    (replaceChar bq ['\\', bq]
      (replaceChar '"' ['\\', '"']
        (replaceChar '\\' ['\\', '\\'] s)))

/-! ### Trusted counterpart parser

The escaped expression is embedded between double quotes in the
`emacsclient -e "..."` invocation.  A POSIX shell reads a
double-quoted word by treating `\` as an escape only before `$`,
backtick, `"` or `\`; Emacs then reads the resulting text as the body
of an elisp string literal where `\\`, `\"`, `\n`, `\t` decode to
backslash, quote, newline and tab. -/

/-- The four characters a backslash protects inside shell double quotes. -/
def isShellSpecial (c : Char) : Bool :=
  c = '$' ∨ c = bq ∨ c = '"' ∨ c = '\\'

/-- Shell double-quote unescaping, scanning one character at a time;
`pend` records a backslash whose effect is still undecided.  `\c` for
special `c` yields `c`; before any other character the backslash stays
literal. -/
def shellDQUnescapeAux : Bool → List Char → List Char
  | false, [] => []
  | true, [] => ['\\']
  | false, c :: cs =>
    if c = '\\' then shellDQUnescapeAux true cs
    else c :: shellDQUnescapeAux false cs
  | true, c :: cs =>
    if isShellSpecial c then c :: shellDQUnescapeAux false cs
    else '\\' :: c :: shellDQUnescapeAux false cs

/-- Shell double-quote unescaping of a word body. -/
def shellDQUnescape (s : List Char) : List Char := shellDQUnescapeAux false s

/-- Scan of a double-quoted shell word body: `true` iff an unprotected
`"` (which would close the word early) or an unprotected backtick or
`$` (which would start command/parameter expansion) occurs. -/
def shellBareMetaAux : Bool → List Char → Bool
  | _, [] => false
  | false, c :: cs =>
    if c = '\\' then shellBareMetaAux true cs
    else if c = '"' ∨ c = bq ∨ c = '$' then true
    else shellBareMetaAux false cs
  | true, _ :: cs =>
    -- the character after a backslash never fires: a special one is
    -- escaped by it, and a non-special one is ordinary (every
    -- metacharacter is special)
    shellBareMetaAux false cs

/-- Unprotected shell metacharacter scan of a word body. -/
def shellBareMeta (s : List Char) : Bool := shellBareMetaAux false s

/-- Elisp string-literal unescaping for the body of a `"..."` literal,
scanning one character at a time with a pending-backslash flag: `\n`
and `\t` decode to newline and tab, any other escaped character
decodes to itself (covering `\\` and `\"`). -/
def elispStringUnescapeAux : Bool → List Char → List Char
  | false, [] => []
  | true, [] => ['\\']
  | false, c :: cs =>
    if c = '\\' then elispStringUnescapeAux true cs
    else c :: elispStringUnescapeAux false cs
  | true, c :: cs =>
    (if c = 'n' then '\n' else if c = 't' then '\t' else c) ::
      elispStringUnescapeAux false cs

/-- Elisp string-literal unescaping of a literal body. -/
def elispStringUnescape (s : List Char) : List Char := elispStringUnescapeAux false s

/-- Scan of an elisp string-literal body: `true` iff an unescaped `"`
(which would close the literal early) occurs. -/
def elispBareQuoteAux : Bool → List Char → Bool
  | _, [] => false
  | false, c :: cs =>
    if c = '\\' then elispBareQuoteAux true cs
    else if c = '"' then true
    else elispBareQuoteAux false cs
  | true, _ :: cs => elispBareQuoteAux false cs

/-- Unescaped quote scan of an elisp string-literal body. -/
def elispBareQuote (s : List Char) : Bool := elispBareQuoteAux false s

/-- Per-character form of `escape_for_elisp`. -/
def elispEscChar (c : Char) : List Char :=
  if c = '\\' then ['\\', '\\']
  else if c = '"' then ['\\', '"']
  else if c = '\n' then ['\\', 'n']
  else if c = '\t' then ['\\', 't']
  else [c]

/-- Per-character form of `shellEscape`. -/
def shellEscChar (c : Char) : List Char :=
  if c = '\\' then ['\\', '\\']
  else if c = '"' then ['\\', '"']
  else if c = bq then ['\\', bq]
  else if c = '$' then ['\\', '$']
  else [c]

/-! ## Process Invoker (`_execute_command`, emacs_client.py lines 130-175) -/

/-- What `subprocess.run` produced: return code and captured streams. -/
structure CompletedProcess where
  returncode : Int
  stdout : List Char
  stderr : List Char
deriving DecidableEq

/-- Outcome of the `subprocess.run` call itself: normal completion,
`TimeoutExpired`, or some other exception (spawn failure etc.). -/
inductive RunOutcome where
  | completed (p : CompletedProcess)
  | timedOut
  | raised (msg : List Char)
deriving DecidableEq

/-- `EmacsClient._execute_command`: raises `EmacsClientError` (modelled
as `Except.error` carrying the message) on nonzero exit, on timeout and
on any other failure; returns stripped stdout on exit code zero.  The
`raise` for a nonzero exit sits inside the `try` block, so the generic
`except Exception` handler catches it and re-raises it wrapped in
`Failed to execute emacsclient: ...`; only the `TimeoutExpired` message
leaves the method unwrapped (an exception raised inside one handler is
not caught by its sibling handlers). -/
def executeCommand (timeout : Nat) (r : RunOutcome) : Except (List Char) (List Char) :=
  match r with
  | .completed p =>
    if p.returncode = 0 then .ok (pyStrip p.stdout)
    else
      .error ("Failed to execute emacsclient: emacsclient failed with code ".toList
        ++ intToStr p.returncode ++ ": ".toList ++ p.stderr)
  | .timedOut =>
    .error ("emacsclient timed out after ".toList ++ natToStr timeout
      ++ " seconds".toList)
  | .raised msg => .error ("Failed to execute emacsclient: ".toList ++ msg)

/-! ## JSON values and a model of Python's `json.loads`

`_parse_json_response` relies on the Python standard library's strict
JSON parser.  We embed it: values are objects (insertion-ordered
key/value pairs, duplicate keys keep their first position and last
value, as Python dicts do), arrays, strings, numbers (kept as their
source token; nothing in the bridge computes with numerics), booleans
and null.  In strict mode the parser rejects raw control characters
below 0x20 inside string literals, which is exactly the defect the
decoder pipeline pre-cleans.  Hex escapes are decoded for non-surrogate
code points (surrogate halves are outside this model). -/

inductive JValue where
  | jnull
  | jbool (b : Bool)
  | jnum (tok : List Char)
  | jstr (s : List Char)
  | jarr (xs : List JValue)
  | jobj (kvs : List (List Char × JValue))

/-- JSON whitespace skipped by Python's decoder: space, tab, LF, CR. -/
def isJsonWs (c : Char) : Bool :=
  c = ' ' ∨ c = '\t' ∨ c = '\n' ∨ c = '\r'

/-- Drop leading JSON whitespace. -/
def skipWs : List Char → List Char
  | [] => []
  | c :: cs => if isJsonWs c then skipWs cs else c :: cs

/-- Value of one hex digit. -/
def hexVal (c : Char) : Option Nat :=
  if '0' ≤ c ∧ c ≤ '9' then some (c.toNat - 48)
  else if 'a' ≤ c ∧ c ≤ 'f' then some (c.toNat - 87)
  else if 'A' ≤ c ∧ c ≤ 'F' then some (c.toNat - 55)
  else none

/-- Value of a four-hex-digit group. -/
def hex4 (a b c d : Char) : Option Nat :=
  match hexVal a, hexVal b, hexVal c, hexVal d with
  | some va, some vb, some vc, some vd => some (((va * 16 + vb) * 16 + vc) * 16 + vd)
  | _, _, _, _ => none

/-- Body of a JSON string literal after the opening quote, strict mode:
recognised escapes are decoded, raw control characters below 0x20 are
rejected, everything else is copied.  Returns the decoded body and the
input after the closing quote. -/
def parseStringBody : List Char → Option (List Char × List Char)
  | [] => none
  | c :: cs =>
    if c = '"' then some ([], cs)
    else if c = '\\' then
      match cs with
      | [] => none
      | e :: es =>
        if e = '"' ∨ e = '\\' ∨ e = '/' then
          (parseStringBody es).map (fun p => (e :: p.1, p.2))
        else if e = 'b' then (parseStringBody es).map (fun p => ('\x08' :: p.1, p.2))
        else if e = 'f' then (parseStringBody es).map (fun p => ('\x0c' :: p.1, p.2))
        else if e = 'n' then (parseStringBody es).map (fun p => ('\n' :: p.1, p.2))
        else if e = 'r' then (parseStringBody es).map (fun p => ('\r' :: p.1, p.2))
        else if e = 't' then (parseStringBody es).map (fun p => ('\t' :: p.1, p.2))
        else if e = 'u' then
          match es with
          | a :: b :: c2 :: d :: rest =>
            match hex4 a b c2 d with
            | some n =>
              if n < 0xd800 ∨ 0xdfff < n then
                (parseStringBody rest).map (fun p => (Char.ofNat n :: p.1, p.2))
              else none
            | none => none
          | _ => none
        else none
    else if c.toNat < 32 then none
    else (parseStringBody cs).map (fun p => (c :: p.1, p.2))

/-- Leading run of ASCII digits. -/
def takeDigitsSpan : List Char → List Char × List Char
  | [] => ([], [])
  | c :: cs =>
    if '0' ≤ c ∧ c ≤ '9' then
      let p := takeDigitsSpan cs
      (c :: p.1, p.2)
    else ([], c :: cs)

/-- Optional fraction part `.[0-9]+`; on no match nothing is consumed. -/
def parseFracPart : List Char → List Char × List Char
  | '.' :: r =>
    match takeDigitsSpan r with
    | ([], _) => ([], '.' :: r)
    | (ds, rest) => ('.' :: ds, rest)
  | s => ([], s)

/-- Optional exponent part `[eE][+-]?[0-9]+`; on no match nothing is
consumed. -/
def parseExpPart : List Char → List Char × List Char
  | [] => ([], [])
  | c :: r =>
    if c = 'e' ∨ c = 'E' then
      match r with
      | '+' :: rr =>
        (match takeDigitsSpan rr with
         | ([], _) => ([], c :: r)
         | (ds, rest) => (c :: '+' :: ds, rest))
      | '-' :: rr =>
        (match takeDigitsSpan rr with
         | ([], _) => ([], c :: r)
         | (ds, rest) => (c :: '-' :: ds, rest))
      | rr =>
        (match takeDigitsSpan rr with
         | ([], _) => ([], c :: r)
         | (ds, rest) => (c :: ds, rest))
    else ([], c :: r)

/-- A JSON number token `-?(0|[1-9][0-9]*)(\.[0-9]+)?([eE][+-]?[0-9]+)?`,
kept as its source text. -/
def parseNumTok (s : List Char) : Option (List Char × List Char) :=
  let neg : List Char × List Char :=
    match s with
    | '-' :: r => (['-'], r)
    | _ => ([], s)
  match neg.2 with
  | [] => none
  | c :: cs =>
    if c = '0' then
      let f := parseFracPart cs
      let e := parseExpPart f.2
      some (neg.1 ++ '0' :: f.1 ++ e.1, e.2)
    else if '0' ≤ c ∧ c ≤ '9' then
      let d := takeDigitsSpan cs
      let f := parseFracPart d.2
      let e := parseExpPart f.2
      some (neg.1 ++ c :: d.1 ++ f.1 ++ e.1, e.2)
    else none

/-- Strip a literal word from the front of the input. -/
def dropLit : List Char → List Char → Option (List Char)
  | [], s => some s
  | l :: ls, c :: cs => if c = l then dropLit ls cs else none
  | _ :: _, [] => none

/-- Insert into a Python-dict-style association list: an existing key
keeps its position and takes the new value, a new key goes to the end. -/
def insertKV : List (List Char × JValue) → List Char → JValue → List (List Char × JValue)
  | [], k, v => [(k, v)]
  | kv :: rest, k, v =>
    if kv.1 = k then (k, v) :: rest else kv :: insertKV rest k v

/-- First value stored under a key. -/
def lookupKey : List (List Char × JValue) → List Char → Option JValue
  | [], _ => none
  | kv :: rest, k => if kv.1 = k then some kv.2 else lookupKey rest k

mutual

/-- One JSON value (fuel-indexed; callers have skipped leading
whitespace).  Literal words are tried before number tokens, matching
Python's scanner (which also accepts `NaN`, `Infinity`, `-Infinity`). -/
def parseValue : Nat → List Char → Option (JValue × List Char)
  | 0, _ => none
  | fuel + 1, s =>
    match s with
    | [] => none
    | c :: cs =>
      if c = '{' then
        match skipWs cs with
        | '}' :: r => some (.jobj [], r)
        | s2 => parseMembers fuel s2 []
      else if c = '[' then
        match skipWs cs with
        | ']' :: r => some (.jarr [], r)
        | s2 => parseElems fuel s2 []
      else if c = '"' then
        match parseStringBody cs with
        | some p => some (.jstr p.1, p.2)
        | none => none
      else
        match dropLit "true".toList s with
        | some r => some (.jbool true, r)
        | none =>
        match dropLit "false".toList s with
        | some r => some (.jbool false, r)
        | none =>
        match dropLit "null".toList s with
        | some r => some (.jnull, r)
        | none =>
        match dropLit "NaN".toList s with
        | some r => some (.jnum "NaN".toList, r)
        | none =>
        match dropLit "Infinity".toList s with
        | some r => some (.jnum "Infinity".toList, r)
        | none =>
        match dropLit "-Infinity".toList s with
        | some r => some (.jnum "-Infinity".toList, r)
        | none =>
        match parseNumTok s with
        | some p => some (.jnum p.1, p.2)
        | none => none

/-- Members of a JSON object after the opening brace (first key is
next). -/
def parseMembers : Nat → List Char → List (List Char × JValue) →
    Option (JValue × List Char)
  | 0, _, _ => none
  | fuel + 1, s, acc =>
    match s with
    | '"' :: cs =>
      match parseStringBody cs with
      | none => none
      | some (key, r1) =>
        match skipWs r1 with
        | ':' :: r2 =>
          (match parseValue fuel (skipWs r2) with
           | none => none
           | some (v, r3) =>
             match skipWs r3 with
             | ',' :: r4 => parseMembers fuel (skipWs r4) (insertKV acc key v)
             | '}' :: r4 => some (.jobj (insertKV acc key v), r4)
             | _ => none)
        | _ => none
    | _ => none

/-- Elements of a JSON array after the opening bracket (first element
is next). -/
def parseElems : Nat → List Char → List JValue → Option (JValue × List Char)
  | 0, _, _ => none
  | fuel + 1, s, acc =>
    match parseValue fuel s with
    | none => none
    | some (v, r) =>
      match skipWs r with
      | ',' :: r2 => parseElems fuel (skipWs r2) (acc ++ [v])
      | ']' :: r2 => some (.jarr (acc ++ [v]), r2)
      | _ => none

end

/-- Python's `json.loads`: parse one value surrounded by optional
whitespace; anything left over is an error.  The fuel `2·|s| + 2`
covers every parse the grammar can produce on `s`. -/
def pyLoads (s : List Char) : Option JValue :=
  match parseValue (2 * s.length + 2) (skipWs s) with
  | some (v, r) => if skipWs r = [] then some v else none
  | none => none

/-! ## Pre-clean pass (`_pre_clean_response`, emacs_client.py lines 233-272) -/

/-- One lowercase hex digit, as Python's `f-string` format `{code:04x}`
renders it: codes 48-57 for values below ten, 97-102 above. -/
def hexDigit (n : Nat) : Char := Char.ofNat (if n < 10 then 48 + n else 87 + n)

/-- The control characters `_pre_clean_response` escapes inside a
string: code points below 0x20 and 0x7F. -/
def isPreCleanCtrl (c : Char) : Bool := c.toNat < 32 ∨ c.toNat = 127

/-- Replacement emitted for one control character (codes below 0x100):
`\t`, `\n`, `\r` for the common three, `\u00xx` otherwise. -/
def ctrlEsc (c : Char) : List Char :=
  if c = '\t' then ['\\', 't']
  else if c = '\n' then ['\\', 'n']
  else if c = '\r' then ['\\', 'r']
  else ['\\', 'u', '0', '0', hexDigit (c.toNat / 16), hexDigit (c.toNat % 16)]

/-- The scanning loop of `_pre_clean_response`: `inStr` is the
inside-a-string flag, `prev` the previously consumed input character
(the loop tests `response[i-1]`).  An unescaped quote toggles the flag;
inside a string, control characters are replaced by their escape
sequences; everything else passes through. -/
def preCleanAux : Bool → Option Char → List Char → List Char
  | _, _, [] => []
  | inStr, prev, c :: cs =>
    if c = '"' ∧ prev ≠ some '\\' then c :: preCleanAux (!inStr) (some c) cs
    else if inStr ∧ isPreCleanCtrl c then ctrlEsc c ++ preCleanAux inStr (some c) cs
    else c :: preCleanAux inStr (some c) cs

/-- `EmacsClient._pre_clean_response`. -/
def preClean (s : List Char) : List Char := preCleanAux false none s

/-! ## Full control-character sweep
(`_parse_json_with_control_char_fix`, emacs_client.py lines 177-231) -/

/-- The control characters the full sweep escapes: code points below
0x20, 0x7F, and the C1 range 0x80-0x9F. -/
def isSweepCtrl (c : Char) : Bool :=
  c.toNat < 32 ∨ c.toNat = 127 ∨ (128 ≤ c.toNat ∧ c.toNat ≤ 159)

/-- The escape characters whose two-character sequences the sweep
copies through untouched. -/
def isJsonEscCh (c : Char) : Bool :=
  c = '"' ∨ c = '\\' ∨ c = 'b' ∨ c = 'f' ∨ c = 'n' ∨ c = 'r' ∨ c = 't' ∨ c = '/'

/-- The cleaning loop of `_parse_json_with_control_char_fix`: valid
escape sequences (including `\uXXXX` when four more characters follow
the `u`) are copied verbatim; control characters anywhere are replaced
by their escapes, without any inside-string tracking. -/
def ctrlSweepF : Nat → List Char → List Char
  | 0, s => s
  | _, [] => []
  | fuel + 1, c :: cs =>
    if c = '\\' then
      match cs with
      | [] => ['\\']
      | d :: ds =>
        if isJsonEscCh d then '\\' :: d :: ctrlSweepF fuel ds
        else if d = 'u' then
          match ds with
          | a :: b :: e :: f :: rest => '\\' :: 'u' :: a :: b :: e :: f :: ctrlSweepF fuel rest
          | _ => '\\' :: ctrlSweepF fuel cs
        else '\\' :: ctrlSweepF fuel cs
    else if isSweepCtrl c then ctrlEsc c ++ ctrlSweepF fuel cs
    else c :: ctrlSweepF fuel cs

/-- The cleaning loop with its index advance bounded by the input
length (each step consumes at least one character, so the fuel never
runs out and the zero-fuel base case is unreachable). -/
def ctrlSweep (s : List Char) : List Char := ctrlSweepF s.length s

/-! ## Response decoder (`_parse_json_response`, emacs_client.py
lines 274-343) -/

/-- Result of `_parse_json_response`: a decoded value, an
`EmacsClientError` (the exhaustion path), or an exception that is not a
`json.JSONDecodeError` escaping the method (``KeyError``/``TypeError``
from the character-array reconstruction). -/
inductive ParseOutcome where
  | ok (v : JValue)
  | clientError
  | uncaught

/-- Python's `str.isdigit` restricted to ASCII: nonempty and all
decimal digits. -/
def pyIsDigitStr (s : List Char) : Bool :=
  !s.isEmpty && s.all (fun c => '0' ≤ c ∧ c ≤ '9')

/-- `all(key.isdigit() for key in parsed.keys())` — vacuously true for
the empty mapping, as in Python. -/
def digitKeyed (kvs : List (List Char × JValue)) : Bool :=
  kvs.all (fun kv => pyIsDigitStr kv.1)

/-- Numeric value of a digit string, Python's `int(k)`. -/
def digitsToNat (s : List Char) : Nat :=
  s.foldl (fun a c => a * 10 + (c.toNat - 48)) 0

/-- Insert into an ascending list of naturals. -/
def insertNatSorted (n : Nat) : List Nat → List Nat
  | [] => [n]
  | m :: ms => if n ≤ m then n :: m :: ms else m :: insertNatSorted n ms

/-- Ascending sort, Python's `sorted` on a list of ints. -/
def sortNat (l : List Nat) : List Nat := l.foldr insertNatSorted []

/-- Look up each index `i` under the key `str(i)` and concatenate the
string values found; `none` on a missing key or a non-string value. -/
def lookupChars (kvs : List (List Char × JValue)) : List Nat → Option (List Char)
  | [] => some []
  | i :: is =>
    match lookupKey kvs (natToStr i) with
    | none => none
    | some (.jstr s) => (lookupChars kvs is).map (fun t => s ++ t)
    | some _ => none

/-- `''.join(parsed[str(i)] for i in sorted(int(k) for k in keys))`:
`none` models a `KeyError` (a key vanished under `int`/`str`
normalisation) or a `TypeError` (a value is not a string). -/
def reconstructChars (kvs : List (List Char × JValue)) : Option (List Char) :=
  lookupChars kvs (sortNat (kvs.map (fun kv => digitsToNat kv.1)))

/-- The `except json.JSONDecodeError` handler of `_parse_json_response`
(lines 312-343): run the full sweep over the pre-cleaned response,
unwrap one string layer if the result is a string (sweeping again if
needed), and raise `EmacsClientError` when everything fails. -/
def fallbackParse (response : List Char) : ParseOutcome :=
  match pyLoads (ctrlSweep response) with
  | none => .clientError
  | some (.jstr s) =>
    (match pyLoads s with
     | some v => .ok v
     | none =>
       match pyLoads (ctrlSweep s) with
       | some v => .ok v
       | none => .clientError)
  | some v => .ok v

/-- The character-array stage (lines 305-309): a mapping whose keys are
all digit strings is reconstructed and re-parsed; a failed re-parse is
a `json.JSONDecodeError` caught by the handler above. -/
def digitPhase (response : List Char) (v : JValue) : ParseOutcome :=
  match v with
  | .jobj kvs =>
    if digitKeyed kvs then
      match reconstructChars kvs with
      | none => .uncaught
      | some joined =>
        match pyLoads joined with
        | some w => .ok w
        | none => fallbackParse response
    else .ok (.jobj kvs)
  | v => .ok v

/-- The double-encoding unwrap (lines 296-303): the inner string is
pre-cleaned and parsed, with the full sweep as a second attempt; a
failure of the sweep propagates to the outer handler. -/
def innerPhase (response s2 : List Char) : ParseOutcome :=
  match pyLoads s2 with
  | some v => digitPhase response v
  | none =>
    match pyLoads (ctrlSweep s2) with
    | some v => digitPhase response v
    | none => fallbackParse response

/-- `_parse_json_response` on the already pre-cleaned response. -/
def parseCleaned (response : List Char) : ParseOutcome :=
  match pyLoads response with
  | none => fallbackParse response
  | some (.jstr s) => innerPhase response (preClean s)
  | some v => digitPhase response v

/-- `EmacsClient._parse_json_response` on the raw captured stdout. -/
def parseJsonResponse (raw : List Char) : ParseOutcome :=
  parseCleaned (preClean raw)

/-! ## Bridge facade (`eval_elisp`, emacs_client.py lines 345-370) -/

/-- The configuration an `EmacsClient` stores: the server file path
resolved at construction and the subprocess timeout. -/
structure ClientConfig where
  server_file : List Char
  timeout : Nat
deriving DecidableEq

/-- The shell command `eval_elisp` builds: the expression is shell
escaped and placed between double quotes; the `--server-file` flag is
present exactly when `os.path.exists(self.server_file)` held at call
time. -/
def evalElispCommand (serverFileExists : Bool) (serverFile expr : List Char) : List Char :=
  if serverFileExists then
    "emacsclient --server-file=".toList ++ serverFile ++ " -e \"".toList
      ++ shellEscape expr ++ ['"']
  else
    "emacsclient -e \"".toList ++ shellEscape expr ++ ['"']

/-- `EmacsClient.eval_elisp`: build the command, run it through
`_execute_command` (an `EmacsClientError` propagates), decode the
stdout through `_parse_json_response`.  The method only reads the
stored configuration, so it is returned unchanged alongside the
result.  `runner` supplies the behaviour of the external process for a
given command line. -/
def evalElisp (serverFileExists : Bool) (cfg : ClientConfig) (expr : List Char)
    (runner : List Char → RunOutcome) : ParseOutcome × ClientConfig :=
  (match executeCommand cfg.timeout
      (runner (evalElispCommand serverFileExists cfg.server_file expr)) with
   | .error _ => .clientError
   | .ok out => parseJsonResponse out,
   cfg)

/-! ## Result sanitisation (`server.py` lines 1141-1175) -/

/-- Code points `_sanitize_control_chars` replaces: below 0x20, 0x7F,
and 0x80-0x9F. -/
def badCode (c : Char) : Bool :=
  c.toNat < 32 ∨ c.toNat = 127 ∨ (128 ≤ c.toNat ∧ c.toNat ≤ 159)

/-- `_sanitize_control_chars`: every such code point becomes one
space; every other character is kept. -/
def sanitizeControlChars (s : List Char) : List Char :=
  s.map (fun c => if badCode c then ' ' else c)

mutual

/-- The Python values `_sanitize_result` traverses: strings, numbers,
booleans, `None`, lists and string-keyed dicts. -/
inductive PyVal where
  | vstr (s : List Char)
  | vint (n : Int)
  | vbool (b : Bool)
  | vnone
  | vlist (xs : PyList)
  | vdict (kvs : PyDict)

inductive PyList where
  | nil
  | cons (hd : PyVal) (tl : PyList)

inductive PyDict where
  | nil
  | cons (k : List Char) (v : PyVal) (tl : PyDict)

end

mutual

/-- `_sanitize_result`: strings are cleaned, dict values and list
elements recursed into (keys untouched), all other leaves returned
as-is. -/
def sanitizeResult : PyVal → PyVal
  | .vstr s => .vstr (sanitizeControlChars s)
  | .vlist xs => .vlist (sanitizeList xs)
  | .vdict kvs => .vdict (sanitizeDict kvs)
  | v => v

def sanitizeList : PyList → PyList
  | .nil => .nil
  | .cons h t => .cons (sanitizeResult h) (sanitizeList t)

def sanitizeDict : PyDict → PyDict
  | .nil => .nil
  | .cons k v t => .cons k (sanitizeResult v) (sanitizeDict t)

end

mutual

/-- What the claim states `_sanitize_result` does, as a relation
between input and output (following the spec's words, to be compared
with the function embedded from the source): shape is preserved
exactly — dict keys, list order and non-string leaves unchanged — and
each string is rewritten position by position, control characters
becoming one space each, so lengths are preserved and no control
character survives. -/
inductive SanitizeSpec : PyVal → PyVal → Prop where
  | str (s s' : List Char)
      (hlen : s'.length = s.length)
      (hpt : ∀ i : Nat, s'.get? i = (s.get? i).map (fun c => if badCode c then ' ' else c))
      (hclean : ∀ c ∈ s', badCode c = false) :
      SanitizeSpec (.vstr s) (.vstr s')
  | int (n : Int) : SanitizeSpec (.vint n) (.vint n)
  | bool (b : Bool) : SanitizeSpec (.vbool b) (.vbool b)
  | none : SanitizeSpec .vnone .vnone
  | list {xs ys : PyList} (h : SanitizeSpecL xs ys) : SanitizeSpec (.vlist xs) (.vlist ys)
  | dict {kvs kvs' : PyDict} (h : SanitizeSpecD kvs kvs') : SanitizeSpec (.vdict kvs) (.vdict kvs')

inductive SanitizeSpecL : PyList → PyList → Prop where
  | nil : SanitizeSpecL .nil .nil
  | cons {v w : PyVal} {t t' : PyList} (hv : SanitizeSpec v w) (ht : SanitizeSpecL t t') :
      SanitizeSpecL (.cons v t) (.cons w t')

inductive SanitizeSpecD : PyDict → PyDict → Prop where
  | nil : SanitizeSpecD .nil .nil
  | cons (k : List Char) {v w : PyVal} {t t' : PyDict}
      (hv : SanitizeSpec v w) (ht : SanitizeSpecD t t') :
      SanitizeSpecD (.cons k v t) (.cons k w t')

end

/-! ## Note deduplication (`_deduplicate_notes`, server.py lines 1245-1253) -/

/-- The fields of a note mapping that `_deduplicate_notes` reads;
`none` models an absent key. -/
structure Note where
  file : Option (List Char)
  id : Option (List Char)
  similarity_score : Option ℚ
  relevance_score : Option ℚ
deriving DecidableEq

/-- `note.get('file', note.get('id', ''))`. -/
def noteKey (n : Note) : List Char := n.file.getD (n.id.getD [])

/-- `note.get('similarity_score', note.get('relevance_score', 0))`. -/
def noteScore (n : Note) : ℚ := n.similarity_score.getD (n.relevance_score.getD 0)

/-- First stored note under a key. -/
def lookupNote : List (List Char × Note) → List Char → Option Note
  | [], _ => none
  | kv :: rest, k => if kv.1 = k then some kv.2 else lookupNote rest k

/-- Replace the value stored under a key, keeping its position. -/
def replaceNote : List (List Char × Note) → List Char → Note → List (List Char × Note)
  | [], k, n => [(k, n)]
  | kv :: rest, k, n =>
    if kv.1 = k then (k, n) :: rest else kv :: replaceNote rest k n

/-- One iteration of the `_deduplicate_notes` loop over `seen_files`:
a new key is appended; an existing key is overwritten only when the
incoming score is strictly greater than the stored note's score. -/
def dedupStep (seen : List (List Char × Note)) (n : Note) : List (List Char × Note) :=
  match lookupNote seen (noteKey n) with
  | none => seen ++ [(noteKey n, n)]
  | some m => if noteScore m < noteScore n then replaceNote seen (noteKey n) n else seen

/-- `_deduplicate_notes`: fold the loop over the input and return
`seen_files.values()` in insertion order. -/
def deduplicateNotes (notes : List Note) : List Note :=
  (notes.foldl dedupStep []).map (fun kv => kv.2)

/-! ## Daily note content (`get_daily_content`, emacs_client.py
lines 545-584) -/

/-- Python's `response.replace('\\n', '\n')` for the two-character
pattern backslash-`n`. -/
def replaceLitNewline : List Char → List Char
  | '\\' :: 'n' :: rest => '\n' :: replaceLitNewline rest
  | c :: rest => c :: replaceLitNewline rest
  | [] => []

/-- `content.startswith('"')`. -/
def startsWithQuote : List Char → Bool
  | '"' :: _ => true
  | _ => false

/-- `content.endswith('"')`. -/
def endsWithQuote (s : List Char) : Bool :=
  match s.getLast? with
  | some '"' => true
  | _ => false

/-- The response clean-up inside `get_daily_content`: literal `\n`
sequences become newlines, the result is stripped, and one layer of
surrounding quotes is removed. -/
def cleanDailyContent (response : List Char) : List Char :=
  let content := pyStrip (replaceLitNewline response)
  if startsWithQuote content ∧ endsWithQuote content then
    (content.drop 1).dropLast
  else content

/-- The mapping `get_daily_content` returns (`error` is present only on
failure). -/
structure DailyResult where
  success : Bool
  content : List Char
  date : List Char
  error : Option (List Char)
deriving DecidableEq

/-- `EmacsClient.get_daily_content`: on any failure of the underlying
command the exception text is reported in an `error` field with empty
content; on success the cleaned content is returned; either way the
requested date (or `"today"`) is echoed back and no exception escapes. -/
def getDailyContent (date : Option (List Char))
    (exec : Except (List Char) (List Char)) : DailyResult :=
  match exec with
  | .ok response =>
    { success := true
      content := cleanDailyContent response
      date := date.getD "today".toList
      error := none }
  | .error e =>
    { success := false
      content := []
      date := date.getD "today".toList
      error := some e }

/-! ## Auxiliary definitions used by the statements and proofs -/

/-- An ordinary JSON string character: not a quote, not a backslash,
not a code point the pre-clean pass rewrites. -/
def plainChar (c : Char) : Bool :=
  c ≠ '"' ∧ c ≠ '\\' ∧ 31 < c.toNat ∧ c.toNat ≠ 127

/-- Loop invariant of `_deduplicate_notes`: every entry of `seen` is
keyed by its note's key, keys are pairwise distinct, every stored note
was seen in the processed input, and each stored note's score is
maximal among the processed notes sharing its key. -/
def DedupInv (processed : List Note) (seen : List (List Char × Note)) : Prop :=
  (∀ kv ∈ seen, kv.1 = noteKey kv.2) ∧
  (seen.map Prod.fst).Nodup ∧
  (∀ kv ∈ seen, kv.2 ∈ processed) ∧
  (∀ kv ∈ seen, ∀ m ∈ processed, noteKey m = kv.1 → noteScore m ≤ noteScore kv.2) ∧
  (∀ m ∈ processed, ∃ kv ∈ seen, kv.1 = noteKey m)

/-! # Theorems -/

/-! ## C1: the escaping round trip -/

theorem replaceChar_append (pat : Char) (rep : List Char) (xs ys : List Char) :
    replaceChar pat rep (xs ++ ys) = replaceChar pat rep xs ++ replaceChar pat rep ys := by
  induction xs with
  | nil => simp [replaceChar]
  | cons c cs ih => simp [replaceChar, ih]

theorem escape_for_elisp_cons (c : Char) (s : List Char) :
    escape_for_elisp (c :: s) = elispEscChar c ++ escape_for_elisp s := by
  by_cases h1 : c = '\\'
  · subst h1; simp [escape_for_elisp, elispEscChar, replaceChar, replaceChar_append]
  · by_cases h2 : c = '"'
    · subst h2; simp [escape_for_elisp, elispEscChar, replaceChar, replaceChar_append]
    · by_cases h3 : c = '\n'
      · subst h3; simp [escape_for_elisp, elispEscChar, replaceChar, replaceChar_append]
      · by_cases h4 : c = '\t'
        · subst h4; simp [escape_for_elisp, elispEscChar, replaceChar, replaceChar_append]
        · simp [escape_for_elisp, elispEscChar, replaceChar, replaceChar_append,
            h1, h2, h3, h4]

theorem shellEscape_cons (c : Char) (s : List Char) :
    shellEscape (c :: s) = shellEscChar c ++ shellEscape s := by
  by_cases h1 : c = '\\'
  · subst h1; simp [shellEscape, shellEscChar, replaceChar, replaceChar_append, bq]
  · by_cases h2 : c = '"'
    · subst h2; simp [shellEscape, shellEscChar, replaceChar, replaceChar_append, bq]
    · by_cases h3 : c = bq
      · subst h3; simp [shellEscape, shellEscChar, replaceChar, replaceChar_append, bq]
      · by_cases h4 : c = '$'
        · subst h4; simp [shellEscape, shellEscChar, replaceChar, replaceChar_append, bq]
        · simp [shellEscape, shellEscChar, replaceChar, replaceChar_append,
            h1, h2, h3, h4]

theorem shellDQUnescape_shellEscape (s : List Char) :
    shellDQUnescape (shellEscape s) = s := by
  induction s with
  | nil => simp [shellEscape, replaceChar, shellDQUnescape, shellDQUnescapeAux]
  | cons c cs ih =>
    rw [shellEscape_cons]
    by_cases h1 : c = '\\'
    · subst h1
      simpa [shellEscChar, shellDQUnescape, shellDQUnescapeAux, isShellSpecial, bq] using ih
    · by_cases h2 : c = '"'
      · subst h2
        simpa [shellEscChar, shellDQUnescape, shellDQUnescapeAux, isShellSpecial, bq] using ih
      · by_cases h3 : c = bq
        · subst h3
          simpa [shellEscChar, shellDQUnescape, shellDQUnescapeAux, isShellSpecial, bq] using ih
        · by_cases h4 : c = '$'
          · subst h4
            simpa [shellEscChar, shellDQUnescape, shellDQUnescapeAux, isShellSpecial, bq] using ih
          · simpa [shellEscChar, shellDQUnescape, shellDQUnescapeAux, h1, h2, h3, h4] using ih

theorem shellBareMeta_shellEscape (s : List Char) :
    shellBareMeta (shellEscape s) = false := by
  induction s with
  | nil => simp [shellEscape, replaceChar, shellBareMeta, shellBareMetaAux]
  | cons c cs ih =>
    rw [shellEscape_cons]
    by_cases h1 : c = '\\'
    · subst h1
      simpa [shellEscChar, shellBareMeta, shellBareMetaAux, isShellSpecial, bq] using ih
    · by_cases h2 : c = '"'
      · subst h2
        simpa [shellEscChar, shellBareMeta, shellBareMetaAux, isShellSpecial, bq] using ih
      · by_cases h3 : c = bq
        · subst h3
          simpa [shellEscChar, shellBareMeta, shellBareMetaAux, isShellSpecial, bq] using ih
        · by_cases h4 : c = '$'
          · subst h4
            simpa [shellEscChar, shellBareMeta, shellBareMetaAux, isShellSpecial, bq] using ih
          · simpa [shellEscChar, shellBareMeta, shellBareMetaAux, h1, h2, h3, h4] using ih

theorem elispStringUnescape_escape (s : List Char) :
    elispStringUnescape (escape_for_elisp s) = s := by
  induction s with
  | nil => simp [escape_for_elisp, replaceChar, elispStringUnescape, elispStringUnescapeAux]
  | cons c cs ih =>
    rw [escape_for_elisp_cons]
    by_cases h1 : c = '\\'
    · subst h1
      simpa [elispEscChar, elispStringUnescape, elispStringUnescapeAux] using ih
    · by_cases h2 : c = '"'
      · subst h2
        simpa [elispEscChar, elispStringUnescape, elispStringUnescapeAux] using ih
      · by_cases h3 : c = '\n'
        · subst h3
          simpa [elispEscChar, elispStringUnescape, elispStringUnescapeAux] using ih
        · by_cases h4 : c = '\t'
          · subst h4
            simpa [elispEscChar, elispStringUnescape, elispStringUnescapeAux] using ih
          · simpa [elispEscChar, elispStringUnescape, elispStringUnescapeAux,
              h1, h2, h3, h4] using ih

theorem elispBareQuote_escape (s : List Char) :
    elispBareQuote (escape_for_elisp s) = false := by
  induction s with
  | nil => simp [escape_for_elisp, replaceChar, elispBareQuote, elispBareQuoteAux]
  | cons c cs ih =>
    rw [escape_for_elisp_cons]
    by_cases h1 : c = '\\'
    · subst h1; simpa [elispEscChar, elispBareQuote, elispBareQuoteAux] using ih
    · by_cases h2 : c = '"'
      · subst h2; simpa [elispEscChar, elispBareQuote, elispBareQuoteAux] using ih
      · by_cases h3 : c = '\n'
        · subst h3; simpa [elispEscChar, elispBareQuote, elispBareQuoteAux] using ih
        · by_cases h4 : c = '\t'
          · subst h4; simpa [elispEscChar, elispBareQuote, elispBareQuoteAux] using ih
          · simpa [elispEscChar, elispBareQuote, elispBareQuoteAux, h1, h2, h3, h4] using ih

/-- C1: for every text, escaping with `_escape_for_elisp` and then with
the shell-escaping pass of `eval_elisp` yields a body that the trusted
counterpart parser — shell double-quote unescaping followed by elisp
string-literal unescaping — decodes back to exactly the original text;
moreover the shell layer contains no unprotected quote, backtick or
dollar sign (so the double-quoted word cannot be closed early and no
expansion can fire), and the elisp layer contains no unescaped quote
(so the string literal cannot be closed early).  This covers arbitrary
combinations of backslash, double quote, newline, tab, backtick and
dollar sign. -/
theorem escaping_round_trips_and_preserves_boundaries (s : List Char) :
    elispStringUnescape (shellDQUnescape (shellEscape (escape_for_elisp s))) = s ∧
    shellBareMeta (shellEscape (escape_for_elisp s)) = false ∧
    elispBareQuote (shellDQUnescape (shellEscape (escape_for_elisp s))) = false := by
  rw [shellDQUnescape_shellEscape]
  exact ⟨elispStringUnescape_escape s, shellBareMeta_shellEscape _,
    elispBareQuote_escape s⟩

/-! ## C2: nonzero exit in `_execute_command` -/

/-- C2, counterexample: on a process that exits normally with status 1
(stdout `out`, stderr `boom`), `_execute_command` does not return a
result carrying the outcome — it raises `EmacsClientError`.  This
refutes the claim that nonzero exits are returned rather than failed. -/
theorem execute_command_nonzero_does_fail :
    ¬ ∃ out, executeCommand 300 (.completed ⟨1, "out".toList, "boom".toList⟩) =
      .ok out := by
  rintro ⟨out, h⟩
  simp [executeCommand] at h

/-- C2, amended: on every normal exit with nonzero status,
`_execute_command` raises `EmacsClientError` — not a returned result —
whose message carries the exit code and the stderr text, wrapped by the
generic exception handler as
`Failed to execute emacsclient: emacsclient failed with code N: stderr`;
the nonzero-exit policy reaches callers only through this exception
(which `sync_database`-style callers catch and reinterpret). -/
theorem execute_command_nonzero_raises (t : Nat) (p : CompletedProcess)
    (h : p.returncode ≠ 0) :
    executeCommand t (.completed p) =
      .error ("Failed to execute emacsclient: emacsclient failed with code ".toList
        ++ intToStr p.returncode ++ ": ".toList ++ p.stderr) := by
  simp [executeCommand, h]

/-- C2, witness: the amended statement evaluated at exit code 1 with
stderr `boom`. -/
theorem execute_command_nonzero_raises_witness :
    executeCommand 300 (.completed ⟨1, "out".toList, "boom".toList⟩) =
      .error ("Failed to execute emacsclient: emacsclient failed with code 1: boom".toList) := by
  rw [execute_command_nonzero_raises 300 ⟨1, "out".toList, "boom".toList⟩ (by decide)]
  rfl

/-! ## C7: the server-file re-check in `eval_elisp` -/

/-- C7: `eval_elisp` re-checks the configured server file before each
invocation: when it exists the command carries the `--server-file`
flag with the stored path, when it is absent the command is the plain
degraded form without the flag (the call still proceeds), and the
stored configuration is returned unchanged by the evaluation. -/
theorem eval_elisp_rechecks_server_file (ex : Bool) (cfg : ClientConfig)
    (expr : List Char) (runner : List Char → RunOutcome) :
    (ex = true → evalElispCommand ex cfg.server_file expr =
      "emacsclient --server-file=".toList ++ cfg.server_file
        ++ " -e \"".toList ++ shellEscape expr ++ ['"']) ∧
    (ex = false → evalElispCommand ex cfg.server_file expr =
      "emacsclient -e \"".toList ++ shellEscape expr ++ ['"']) ∧
    (evalElisp ex cfg expr runner).2 = cfg := by
  refine ⟨fun h => ?_, fun h => ?_, rfl⟩
  · simp [evalElispCommand, h]
  · simp [evalElispCommand, h]

/-- C7, witness: with the server file present the flag is emitted for
the stored path; the configuration comes back untouched. -/
theorem eval_elisp_rechecks_server_file_witness :
    evalElispCommand true "/srv/server".toList "(f)".toList =
      "emacsclient --server-file=".toList ++ "/srv/server".toList
        ++ " -e \"".toList ++ shellEscape "(f)".toList ++ ['"'] :=
  (eval_elisp_rechecks_server_file true ⟨"/srv/server".toList, 300⟩ "(f)".toList
    (fun _ => .timedOut)).1 rfl

/-! ## C10: total error handling in `get_daily_content` -/

/-- C10: `get_daily_content` never propagates an exception: for every
date argument and every outcome of the underlying command it returns a
mapping with a `success` field; on failure that field is `False` with
the error text, empty content and the requested date (`today` when no
date was given), and on success it is `True` with the cleaned content
and the same date field. -/
theorem get_daily_content_never_raises (date : Option (List Char))
    (exec : Except (List Char) (List Char)) :
    (∀ e, exec = .error e →
      getDailyContent date exec =
        { success := false, content := [], date := date.getD "today".toList,
          error := some e }) ∧
    (∀ r, exec = .ok r →
      getDailyContent date exec =
        { success := true, content := cleanDailyContent r,
          date := date.getD "today".toList, error := none }) := by
  constructor
  · rintro e rfl; rfl
  · rintro r rfl; rfl

/-- C10, witness: a failing command with message `boom` and no date
argument yields the failure mapping for `today`. -/
theorem get_daily_content_never_raises_witness :
    getDailyContent none (.error "boom".toList) =
      { success := false, content := [], date := "today".toList,
        error := some "boom".toList } :=
  (get_daily_content_never_raises none (.error "boom".toList)).1 "boom".toList rfl

/-! ## C8: `_sanitize_result` -/

theorem sanitizeControlChars_length (s : List Char) :
    (sanitizeControlChars s).length = s.length := by
  simp [sanitizeControlChars]

theorem sanitizeControlChars_get? (s : List Char) (i : Nat) :
    (sanitizeControlChars s).get? i =
      (s.get? i).map (fun c => if badCode c then ' ' else c) := by
  simp [sanitizeControlChars, List.get?_eq_getElem?, List.getElem?_map]

theorem sanitizeControlChars_clean (s : List Char) :
    ∀ c ∈ sanitizeControlChars s, badCode c = false := by
  intro c hc
  simp only [sanitizeControlChars, List.mem_map] at hc
  obtain ⟨x, _, rfl⟩ := hc
  by_cases h : badCode x
  · simp [h]; decide
  · simp [h]

mutual

theorem sanitizeResult_spec : ∀ v : PyVal, SanitizeSpec v (sanitizeResult v)
  | .vstr s =>
    .str s (sanitizeControlChars s) (sanitizeControlChars_length s)
      (sanitizeControlChars_get? s) (sanitizeControlChars_clean s)
  | .vint n => .int n
  | .vbool b => .bool b
  | .vnone => .none
  | .vlist xs => .list (sanitizeList_spec xs)
  | .vdict kvs => .dict (sanitizeDict_spec kvs)

theorem sanitizeList_spec : ∀ xs : PyList, SanitizeSpecL xs (sanitizeList xs)
  | .nil => .nil
  | .cons h t => .cons (sanitizeResult_spec h) (sanitizeList_spec t)

theorem sanitizeDict_spec : ∀ kvs : PyDict, SanitizeSpecD kvs (sanitizeDict kvs)
  | .nil => .nil
  | .cons k v t => .cons k (sanitizeResult_spec v) (sanitizeDict_spec t)

end

/-- C8: `_sanitize_result` satisfies the shape-and-cleaning
specification at every input: dictionary keys, list order and
non-string leaves are unchanged, and every string at any nesting depth
is rewritten position by position — control characters (code points
below 32, 127, and 128-159) each become a single space — so output
strings keep their length and contain none of those code points. -/
theorem sanitize_result_preserves_shape_and_cleans (v : PyVal) :
    SanitizeSpec v (sanitizeResult v) :=
  sanitizeResult_spec v

/-! ## C9: `_deduplicate_notes` -/

theorem lookupNote_eq_none (seen : List (List Char × Note)) (k : List Char) :
    lookupNote seen k = none ↔ ∀ kv ∈ seen, kv.1 ≠ k := by
  induction seen with
  | nil => simp [lookupNote]
  | cons kv rest ih =>
    constructor
    · intro h kv' hkv'
      by_cases hk : kv.1 = k
      · rw [lookupNote, if_pos hk] at h
        exact absurd h (by simp)
      · rw [lookupNote, if_neg hk] at h
        rcases List.mem_cons.mp hkv' with rfl | hkv'
        · exact hk
        · exact (ih.mp h) kv' hkv'
    · intro h
      have hk : kv.1 ≠ k := h kv (List.mem_cons_self _ _)
      rw [lookupNote, if_neg hk]
      exact ih.mpr (fun kv' hkv' => h kv' (List.mem_cons_of_mem _ hkv'))

theorem lookupNote_eq_some (seen : List (List Char × Note)) (k : List Char) :
    ∀ m : Note, lookupNote seen k = some m → (k, m) ∈ seen := by
  induction seen with
  | nil => intro m h; simp [lookupNote] at h
  | cons kv rest ih =>
    intro m h
    rw [lookupNote] at h
    by_cases hk : kv.1 = k
    · rw [if_pos hk, Option.some.injEq] at h
      subst hk; subst h
      exact List.mem_cons_self kv rest
    · rw [if_neg hk] at h
      exact List.mem_cons_of_mem _ (ih m h)

theorem replaceNote_map_fst (seen : List (List Char × Note)) (k : List Char)
    (n : Note) : ∀ m : Note, lookupNote seen k = some m →
    (replaceNote seen k n).map Prod.fst = seen.map Prod.fst := by
  induction seen with
  | nil => intro m h; simp [lookupNote] at h
  | cons kv rest ih =>
    intro m h
    rw [lookupNote] at h
    by_cases hk : kv.1 = k
    · simp only [replaceNote, if_pos hk, List.map_cons]
      rw [hk]
    · rw [if_neg hk] at h
      simp only [replaceNote, if_neg hk, List.map_cons]
      rw [ih m h]

theorem replaceNote_mem (seen : List (List Char × Note)) (k : List Char) (n : Note) :
    (seen.map Prod.fst).Nodup →
    ∀ kv ∈ replaceNote seen k n, kv = (k, n) ∨ (kv ∈ seen ∧ kv.1 ≠ k) := by
  induction seen with
  | nil =>
    intro _ kv hkv
    simp only [replaceNote] at hkv
    rw [List.mem_singleton] at hkv
    exact Or.inl hkv
  | cons kv0 rest ih =>
    intro hnd kv hkv
    rw [List.map_cons, List.nodup_cons] at hnd
    by_cases hk : kv0.1 = k
    · simp only [replaceNote, if_pos hk] at hkv
      rcases List.mem_cons.mp hkv with heq | hkv2
      · exact Or.inl heq
      · refine Or.inr ⟨List.mem_cons_of_mem _ hkv2, fun hc => ?_⟩
        apply hnd.1
        rw [hk, ← hc]
        exact List.mem_map_of_mem Prod.fst hkv2
    · simp only [replaceNote, if_neg hk] at hkv
      rcases List.mem_cons.mp hkv with heq | hkv2
      · subst heq
        exact Or.inr ⟨List.mem_cons_self _ _, hk⟩
      · rcases ih hnd.2 kv hkv2 with h | ⟨h1, h2⟩
        · exact Or.inl h
        · exact Or.inr ⟨List.mem_cons_of_mem _ h1, h2⟩

theorem entryKeyUnique (seen : List (List Char × Note)) :
    (seen.map Prod.fst).Nodup →
    ∀ kv ∈ seen, ∀ kv' ∈ seen, kv.1 = kv'.1 → kv = kv' := by
  induction seen with
  | nil => intro _ kv h; simp at h
  | cons kv0 rest ih =>
    intro hnd kv hkv kv' hkv' hk
    rw [List.map_cons, List.nodup_cons] at hnd
    rcases List.mem_cons.mp hkv with h1 | h1
    · rcases List.mem_cons.mp hkv' with h2 | h2
      · rw [h1, h2]
      · exfalso
        apply hnd.1
        rw [← h1, hk]
        exact List.mem_map_of_mem Prod.fst h2
    · rcases List.mem_cons.mp hkv' with h2 | h2
      · exfalso
        apply hnd.1
        rw [← h2, ← hk]
        exact List.mem_map_of_mem Prod.fst h1
      · exact ih hnd.2 kv h1 kv' h2 hk

theorem dedupStep_inv (processed : List Note) (seen : List (List Char × Note))
    (n : Note) (h : DedupInv processed seen) :
    DedupInv (processed ++ [n]) (dedupStep seen n) := by
  obtain ⟨ha, hb, hc, hd, he⟩ := h
  cases hlk : lookupNote seen (noteKey n) with
  | none =>
    have hstep : dedupStep seen n = seen ++ [(noteKey n, n)] := by
      unfold dedupStep; rw [hlk]
    rw [hstep]
    have hnone := (lookupNote_eq_none seen (noteKey n)).mp hlk
    refine ⟨?_, ?_, ?_, ?_, ?_⟩
    · intro kv hkv
      rcases List.mem_append.mp hkv with h1 | h1
      · exact ha kv h1
      · rw [List.mem_singleton] at h1; subst h1; rfl
    · rw [List.map_append, List.nodup_append]
      refine ⟨hb, List.nodup_singleton _, ?_⟩
      intro x hx hx2
      rcases List.mem_map.mp hx with ⟨kv, hkv, rfl⟩
      simp only [List.map_cons, List.map_nil, List.mem_singleton] at hx2
      exact hnone kv hkv hx2
    · intro kv hkv
      rcases List.mem_append.mp hkv with h1 | h1
      · exact List.mem_append_left _ (hc kv h1)
      · rw [List.mem_singleton] at h1; subst h1
        exact List.mem_append_right _ (List.mem_singleton_self n)
    · intro kv hkv m hm hkey
      rcases List.mem_append.mp hkv with h1 | h1
      · rcases List.mem_append.mp hm with h2 | h2
        · exact hd kv h1 m h2 hkey
        · rw [List.mem_singleton] at h2; subst h2
          exact absurd hkey.symm (hnone kv h1)
      · rw [List.mem_singleton] at h1; subst h1
        rcases List.mem_append.mp hm with h2 | h2
        · obtain ⟨kv2, hkv2, hkey2⟩ := he m h2
          exact absurd (hkey2.trans hkey) (hnone kv2 hkv2)
        · rw [List.mem_singleton] at h2; subst h2
          exact le_refl _
    · intro m hm
      rcases List.mem_append.mp hm with h2 | h2
      · obtain ⟨kv2, hkv2, hkey2⟩ := he m h2
        exact ⟨kv2, List.mem_append_left _ hkv2, hkey2⟩
      · rw [List.mem_singleton] at h2; subst h2
        exact ⟨(noteKey m, m), List.mem_append_right _ (List.mem_singleton_self _), rfl⟩
  | some stored =>
    have hmem : (noteKey n, stored) ∈ seen := lookupNote_eq_some seen (noteKey n) stored hlk
    by_cases hscore : noteScore stored < noteScore n
    · have hstep : dedupStep seen n = replaceNote seen (noteKey n) n := by
        unfold dedupStep; rw [hlk]; exact if_pos hscore
      rw [hstep]
      have hrmem := replaceNote_mem seen (noteKey n) n hb
      have hmf := replaceNote_map_fst seen (noteKey n) n stored hlk
      refine ⟨?_, ?_, ?_, ?_, ?_⟩
      · intro kv hkv
        rcases hrmem kv hkv with rfl | ⟨h1, _⟩
        · rfl
        · exact ha kv h1
      · rw [hmf]; exact hb
      · intro kv hkv
        rcases hrmem kv hkv with rfl | ⟨h1, _⟩
        · exact List.mem_append_right _ (List.mem_singleton_self _)
        · exact List.mem_append_left _ (hc kv h1)
      · intro kv hkv m hm hkey
        rcases hrmem kv hkv with rfl | ⟨h1, hne⟩
        · rcases List.mem_append.mp hm with h2 | h2
          · exact le_of_lt (lt_of_le_of_lt (hd _ hmem m h2 hkey) hscore)
          · rw [List.mem_singleton] at h2; subst h2
            exact le_refl _
        · rcases List.mem_append.mp hm with h2 | h2
          · exact hd kv h1 m h2 hkey
          · rw [List.mem_singleton] at h2; subst h2
            exact absurd hkey.symm hne
      · intro m hm
        rcases List.mem_append.mp hm with h2 | h2
        · obtain ⟨kv2, hkv2, hkey2⟩ := he m h2
          have hx : kv2.1 ∈ (replaceNote seen (noteKey n) n).map Prod.fst := by
            rw [hmf]; exact List.mem_map_of_mem Prod.fst hkv2
          rcases List.mem_map.mp hx with ⟨kv3, hkv3, hfst⟩
          exact ⟨kv3, hkv3, hfst.trans hkey2⟩
        · rw [List.mem_singleton] at h2
          rw [h2]
          have hx : noteKey n ∈ (replaceNote seen (noteKey n) n).map Prod.fst := by
            rw [hmf]; exact List.mem_map_of_mem Prod.fst hmem
          rcases List.mem_map.mp hx with ⟨kv3, hkv3, hfst⟩
          exact ⟨kv3, hkv3, hfst⟩
    · have hstep : dedupStep seen n = seen := by
        unfold dedupStep; rw [hlk]; exact if_neg hscore
      rw [hstep]
      refine ⟨ha, hb, fun kv hkv => List.mem_append_left _ (hc kv hkv), ?_, ?_⟩
      · intro kv hkv m hm hkey
        rcases List.mem_append.mp hm with h2 | h2
        · exact hd kv hkv m h2 hkey
        · rw [List.mem_singleton] at h2
          subst h2
          have hkveq : kv = (noteKey m, stored) :=
            entryKeyUnique seen hb kv hkv (noteKey m, stored) hmem hkey.symm
          rw [hkveq]
          exact le_of_not_lt hscore
      · intro m hm
        rcases List.mem_append.mp hm with h2 | h2
        · exact he m h2
        · rw [List.mem_singleton] at h2; subst h2
          exact ⟨(noteKey m, stored), hmem, rfl⟩

theorem dedup_fold_inv (notes : List Note) :
    ∀ (processed : List Note) (seen : List (List Char × Note)),
      DedupInv processed seen →
      DedupInv (processed ++ notes) (notes.foldl dedupStep seen) := by
  induction notes with
  | nil => intro processed seen h; simpa using h
  | cons m ms ih =>
    intro processed seen h
    have h2 := ih (processed ++ [m]) (dedupStep seen m) (dedupStep_inv processed seen m h)
    simpa [List.append_assoc] using h2

/-- C9: `_deduplicate_notes` returns a list in which no two notes share
the same file key (`file` falling back to `id`), every returned note
occurs in the input, and each returned note's score (`similarity_score`
falling back to `relevance_score`, defaulting to 0) is maximal among
the input notes with the same key. -/
theorem deduplicate_notes_unique_and_maximal (notes : List Note) :
    (deduplicateNotes notes).Pairwise (fun a b => noteKey a ≠ noteKey b) ∧
    ∀ n ∈ deduplicateNotes notes, n ∈ notes ∧
      ∀ m ∈ notes, noteKey m = noteKey n → noteScore m ≤ noteScore n := by
  have hinv := dedup_fold_inv notes [] []
    ⟨fun kv h => absurd h (List.not_mem_nil kv), List.nodup_nil,
     fun kv h => absurd h (List.not_mem_nil kv),
     fun kv h => absurd h (List.not_mem_nil kv),
     fun m h => absurd h (List.not_mem_nil m)⟩
  rw [List.nil_append] at hinv
  obtain ⟨ha, hb, hc, hd, _⟩ := hinv
  constructor
  · unfold deduplicateNotes
    rw [List.pairwise_map]
    have hp : (notes.foldl dedupStep []).Pairwise (fun kv kv' => kv.1 ≠ kv'.1) :=
      List.pairwise_map.mp hb
    exact hp.imp_of_mem (fun {kv kv'} h1 h2 hne => by
      rw [← ha kv h1, ← ha kv' h2]; exact hne)
  · intro nn hnn
    unfold deduplicateNotes at hnn
    rcases List.mem_map.mp hnn with ⟨kv, hkv, rfl⟩
    refine ⟨hc kv hkv, ?_⟩
    intro m hm hkey
    exact hd kv hkv m hm (hkey.trans (ha kv hkv).symm)

/-- C9, witness: of two notes for the same file with scores 1 and 2,
deduplication keeps the higher-scoring one, and the kept note's score
dominates the other's. -/
theorem deduplicate_notes_unique_and_maximal_witness :
    noteScore ⟨some "a.org".toList, none, some 1, none⟩ ≤
      noteScore ⟨some "a.org".toList, none, some 2, none⟩ :=
  ((deduplicate_notes_unique_and_maximal
      [⟨some "a.org".toList, none, some 1, none⟩,
       ⟨some "a.org".toList, none, some 2, none⟩]).2
    ⟨some "a.org".toList, none, some 2, none⟩ (by decide)).2
    ⟨some "a.org".toList, none, some 1, none⟩ (by decide) (by decide)


/-! ## C3: double-encoding unwrap -/

/-- C3: whenever the pre-cleaned raw stdout parses to a string (the
extra quoting layer emacsclient adds) and that inner string, pre-cleaned
again, parses to an object that is not digit-keyed, then
`_parse_json_response` returns the structured object — not the
intermediate string: after the primary parse yields a string, the inner
string is pre-cleaned and parsed again. -/
theorem parse_json_response_unwraps_double_encoding
    (raw s : List Char) (kvs : List (List Char × JValue))
    (h1 : pyLoads (preClean raw) = some (.jstr s))
    (h2 : pyLoads (preClean s) = some (.jobj kvs))
    (h3 : digitKeyed kvs = false) :
    parseJsonResponse raw = .ok (.jobj kvs) := by
  simp only [parseJsonResponse, parseCleaned, h1, innerPhase, h2, digitPhase, h3,
    Bool.false_eq_true, if_false]

/-- C3, witness: the raw text `"{\"success\":true}"` (a JSON string
literal whose content is itself a JSON object, quotes included) decodes
to the structured object mapping `success` to `true`. -/
theorem parse_json_response_unwraps_double_encoding_witness :
    pyLoads (preClean "\"\x7b\\\"success\\\":true\x7d\"".toList) =
      some (.jstr "\x7b\"success\":true\x7d".toList) ∧
    parseJsonResponse "\"\x7b\\\"success\\\":true\x7d\"".toList =
      .ok (.jobj [("success".toList, .jbool true)]) :=
  ⟨rfl, parse_json_response_unwraps_double_encoding _ _ _ rfl rfl rfl⟩

/-! ## C4: character-array reconstruction -/

/-- C4, counterexample: decoding the character-array text
`{"0":"O","1":"K"}` does not produce the same result as decoding the
literal string `"OK"`: the reconstructed text `OK` is not valid JSON,
so the decoder falls back and returns the digit-keyed mapping itself,
while decoding `"OK"` exhausts the pipeline and raises
`EmacsClientError`. -/
theorem parse_json_response_char_array_differs_from_string :
    parseJsonResponse "\x7b\"0\":\"O\",\"1\":\"K\"\x7d".toList ≠
      parseJsonResponse "\"OK\"".toList := by
  have ha : parseJsonResponse "\x7b\"0\":\"O\",\"1\":\"K\"\x7d".toList =
      .ok (.jobj [("0".toList, .jstr "O".toList), ("1".toList, .jstr "K".toList)]) := rfl
  have hb : parseJsonResponse "\"OK\"".toList = .clientError := rfl
  rw [ha, hb]
  intro h
  exact ParseOutcome.noConfusion h

/-- C4, amended: when the parsed structured value is a mapping whose
keys are all digit strings, the decoder reconstructs the string by
concatenating the values ordered by the numeric value of their keys and
attempts to parse it as structured data; the parse result is returned
only when the reconstructed text is itself valid JSON — otherwise the
decoder falls back to re-sweeping the pre-cleaned response and, when
that re-parse returns the mapping, the digit-keyed mapping itself is
returned (so `{"0":"O","1":"K"}` decodes to that mapping, not to the
result of decoding `"OK"`). -/
theorem parse_json_response_char_array_reconstruction
    (raw : List Char) (kvs : List (List Char × JValue)) (joined : List Char)
    (h1 : pyLoads (preClean raw) = some (.jobj kvs))
    (h2 : digitKeyed kvs = true)
    (h3 : reconstructChars kvs = some joined) :
    (∀ v, pyLoads joined = some v → parseJsonResponse raw = .ok v) ∧
    (pyLoads joined = none →
      pyLoads (ctrlSweep (preClean raw)) = some (.jobj kvs) →
      parseJsonResponse raw = .ok (.jobj kvs)) := by
  constructor
  · intro v hv
    simp only [parseJsonResponse, parseCleaned, h1, digitPhase, h2, if_true, h3, hv]
  · intro hnone hsweep
    simp only [parseJsonResponse, parseCleaned, h1, digitPhase, h2, if_true, h3, hnone,
      fallbackParse, hsweep]

/-- C4, witness: the amended statement evaluated on `{"0":"O","1":"K"}`,
whose reconstruction `OK` is not valid JSON, so the decoder returns the
mapping itself. -/
theorem parse_json_response_char_array_reconstruction_witness :
    reconstructChars [("0".toList, JValue.jstr "O".toList),
        ("1".toList, JValue.jstr "K".toList)] = some "OK".toList ∧
    parseJsonResponse "\x7b\"0\":\"O\",\"1\":\"K\"\x7d".toList =
      .ok (.jobj [("0".toList, .jstr "O".toList), ("1".toList, .jstr "K".toList)]) :=
  ⟨rfl,
    (parse_json_response_char_array_reconstruction
      "\x7b\"0\":\"O\",\"1\":\"K\"\x7d".toList
      [("0".toList, JValue.jstr "O".toList), ("1".toList, JValue.jstr "K".toList)]
      "OK".toList rfl rfl rfl).2 rfl rfl⟩

/-! ## C5: idempotence of the pre-clean pass -/

theorem hexDigit_plain (n : Nat) (hn : n < 16) :
    hexDigit n ≠ '"' ∧ hexDigit n ≠ '\\' ∧ isPreCleanCtrl (hexDigit n) = false := by
  interval_cases n <;> decide

theorem preCleanAux_ctrlEsc (c : Char) (hc : isPreCleanCtrl c = true)
    (inStr : Bool) (p : Option Char) (t : List Char) :
    ∃ q : Option Char, q ≠ some '\\' ∧
      preCleanAux inStr p (ctrlEsc c ++ t) = ctrlEsc c ++ preCleanAux inStr q t := by
  by_cases h1 : c = '\t'
  · exact ⟨some 't', by simp, by simp [ctrlEsc, h1, preCleanAux, isPreCleanCtrl]⟩
  · by_cases h2 : c = '\n'
    · exact ⟨some 'n', by simp, by simp [ctrlEsc, h2, preCleanAux, isPreCleanCtrl]⟩
    · by_cases h3 : c = '\r'
      · exact ⟨some 'r', by simp, by simp [ctrlEsc, h3, preCleanAux, isPreCleanCtrl]⟩
      · have hlt : c.toNat < 256 := by
          simp only [isPreCleanCtrl, Bool.or_eq_true, decide_eq_true_eq] at hc
          omega
        obtain ⟨ha1, ha2, ha3⟩ := hexDigit_plain (c.toNat / 16) (by omega)
        obtain ⟨hb1, hb2, hb3⟩ := hexDigit_plain (c.toNat % 16) (by omega)
        have hbs : isPreCleanCtrl '\\' = false := by decide
        have hu : isPreCleanCtrl 'u' = false := by decide
        have h0 : isPreCleanCtrl '0' = false := by decide
        refine ⟨some (hexDigit (c.toNat % 16)), by simp [hb2], ?_⟩
        simp [ctrlEsc, h1, h2, h3, preCleanAux, hbs, hu, h0, ha1, ha3, hb1, hb3]

theorem preCleanAux_idem (cs : List Char) :
    ∀ (inStr : Bool) (p p' : Option Char),
      (p' = some '\\' ↔ p = some '\\') →
      preCleanAux inStr p' (preCleanAux inStr p cs) = preCleanAux inStr p cs := by
  induction cs with
  | nil => intro inStr p p' _; simp [preCleanAux]
  | cons c cs ih =>
    intro inStr p p' hpp
    by_cases h1 : c = '"' ∧ p ≠ some '\\'
    · have hp' : p' ≠ some '\\' := fun he => h1.2 (hpp.mp he)
      rw [preCleanAux, if_pos h1]
      rw [preCleanAux, if_pos ⟨h1.1, hp'⟩]
      rw [ih (!inStr) (some c) (some c) Iff.rfl]
    · by_cases h2 : (inStr : Prop) ∧ isPreCleanCtrl c = true
      · rw [preCleanAux, if_neg h1, if_pos h2]
        obtain ⟨q, hq, heq⟩ :=
          preCleanAux_ctrlEsc c h2.2 inStr p' (preCleanAux inStr (some c) cs)
        rw [heq]
        congr 1
        apply ih
        constructor
        · intro hqq; exact absurd hqq hq
        · intro hcc
          exfalso
          have : c = '\\' := Option.some.inj hcc
          rw [this] at h2
          exact absurd h2.2 (by decide)
      · rw [preCleanAux, if_neg h1, if_neg h2]
        have h1' : ¬(c = '"' ∧ p' ≠ some '\\') := by
          rintro ⟨hcq, hp'⟩
          apply hp'
          apply hpp.mpr
          by_contra hp
          exact h1 ⟨hcq, hp⟩
        rw [preCleanAux, if_neg h1', if_neg h2]
        rw [ih inStr (some c) (some c) Iff.rfl]

/-- C5: the pre-clean pass is idempotent on every input that is valid
JSON (indeed, `_pre_clean_response` is idempotent on all inputs):
applying it twice yields the same text as applying it once. -/
theorem pre_clean_idempotent_on_valid_json (s : List Char)
    (_h : (pyLoads s).isSome = true) :
    preClean (preClean s) = preClean s :=
  preCleanAux_idem s false none none Iff.rfl

/-- C5, witness: the idempotence statement evaluated on the valid JSON
text `[]`. -/
theorem pre_clean_idempotent_on_valid_json_witness :
    (pyLoads "[]".toList).isSome = true ∧
      preClean (preClean "[]".toList) = preClean "[]".toList :=
  ⟨rfl, pre_clean_idempotent_on_valid_json "[]".toList rfl⟩

/-! ## C6: raw newline inside a string value -/

theorem plainChar_spec (c : Char) (h : plainChar c = true) :
    c ≠ '"' ∧ c ≠ '\\' ∧ isPreCleanCtrl c = false ∧ ¬(c.toNat < 32) := by
  simp only [plainChar, decide_eq_true_eq] at h
  obtain ⟨h1, h2, h3, h4⟩ := h
  refine ⟨h1, h2, ?_, by omega⟩
  simp only [isPreCleanCtrl]
  have : ¬(c.toNat < 32 ∨ c.toNat = 127) := by omega
  simpa using this

theorem preCleanAux_plain (l : List Char) (hl : ∀ c ∈ l, plainChar c = true) :
    ∀ (inStr : Bool) (p : Option Char), p ≠ some '\\' →
    ∀ t, ∃ q, q ≠ some '\\' ∧
      preCleanAux inStr p (l ++ t) = l ++ preCleanAux inStr q t := by
  induction l with
  | nil => intro inStr p hp t; exact ⟨p, hp, rfl⟩
  | cons c l ih =>
    intro inStr p hp t
    obtain ⟨h1, h2, h3, _⟩ := plainChar_spec c (hl c (List.mem_cons_self _ _))
    have hcond1 : ¬(c = '"' ∧ p ≠ some '\\') := fun hh => h1 hh.1
    have hcond2 : ¬((inStr : Prop) ∧ isPreCleanCtrl c = true) := by
      rintro ⟨_, hh⟩; rw [h3] at hh; exact Bool.false_ne_true hh
    rw [List.cons_append, preCleanAux, if_neg hcond1, if_neg hcond2]
    obtain ⟨q, hq, heq⟩ := ih (fun x hx => hl x (List.mem_cons_of_mem _ hx)) inStr
      (some c) (by simp [h2]) t
    exact ⟨q, hq, by rw [heq, List.cons_append]⟩

theorem parseStringBody_close (cs : List Char) :
    parseStringBody ('"' :: cs) = some ([], cs) := by
  conv_lhs => rw [parseStringBody.eq_def]
  simp

theorem parseStringBody_escn (cs : List Char) :
    parseStringBody ('\\' :: 'n' :: cs) =
      (parseStringBody cs).map (fun p => ('\n' :: p.1, p.2)) := by
  conv_lhs => rw [parseStringBody.eq_def]
  simp

theorem parseStringBody_ord (c : Char) (h1 : c ≠ '"') (h2 : c ≠ '\\')
    (h4 : ¬(c.toNat < 32)) (cs : List Char) :
    parseStringBody (c :: cs) =
      (parseStringBody cs).map (fun p => (c :: p.1, p.2)) := by
  conv_lhs => rw [parseStringBody.eq_def]
  simp [h1, h2, h4]

theorem parseStringBody_plain (l : List Char) (hl : ∀ c ∈ l, plainChar c = true)
    (t : List Char) :
    parseStringBody (l ++ t) =
      (parseStringBody t).map (fun p => (l ++ p.1, p.2)) := by
  induction l with
  | nil =>
    cases hp : parseStringBody t with
    | none => simp [hp]
    | some p => simp [hp]
  | cons c l ih =>
    obtain ⟨h1, h2, _, h4⟩ := plainChar_spec c (hl c (List.mem_cons_self _ _))
    rw [List.cons_append, parseStringBody_ord c h1 h2 h4]
    rw [ih (fun x hx => hl x (List.mem_cons_of_mem _ hx))]
    cases hp : parseStringBody t with
    | none => simp
    | some p => simp

theorem c6_hbody (l1 l2 : List Char)
    (h1 : ∀ c ∈ l1, plainChar c = true) (h2 : ∀ c ∈ l2, plainChar c = true)
    (t : List Char) :
    parseStringBody (l1 ++ '\\' :: 'n' :: (l2 ++ '"' :: t)) =
      some (l1 ++ '\n' :: l2, t) := by
  rw [parseStringBody_plain l1 h1, parseStringBody_escn,
    parseStringBody_plain l2 h2, parseStringBody_close]
  simp

theorem skipWs_nws (c : Char) (cs : List Char) (h : isJsonWs c = false) :
    skipWs (c :: cs) = c :: cs := by
  rw [skipWs, h]
  rfl

theorem parseValue_obrace (F : Nat) (cs : List Char) :
    parseValue (F + 1) ('\x7b' :: cs) =
      (match skipWs cs with
        | '\x7d' :: r => some (.jobj [], r)
        | s2 => parseMembers F s2 []) := by
  conv_lhs => rw [parseValue.eq_def]
  rfl

theorem parseValue_quote (F : Nat) (cs : List Char) :
    parseValue (F + 1) ('"' :: cs) =
      (match parseStringBody cs with
       | some p => some (.jstr p.1, p.2)
       | none => none) := by
  conv_lhs => rw [parseValue.eq_def]
  rfl

theorem parseMembers_key (F : Nat) (cs : List Char) (acc : List (List Char × JValue)) :
    parseMembers (F + 1) ('"' :: cs) acc =
      (match parseStringBody cs with
       | none => none
       | some (key, r1) =>
         match skipWs r1 with
         | ':' :: r2 =>
           (match parseValue F (skipWs r2) with
            | none => none
            | some (v, r3) =>
              match skipWs r3 with
              | ',' :: r4 => parseMembers F (skipWs r4) (insertKV acc key v)
              | '\x7d' :: r4 => some (.jobj (insertKV acc key v), r4)
              | _ => none)
         | _ => none) := by
  conv_lhs => rw [parseMembers.eq_def]
  rfl

theorem parseStringBody_msg (X : List Char) :
    parseStringBody ('m' :: 's' :: 'g' :: '"' :: X) = some (['m', 's', 'g'], X) := by
  rw [parseStringBody_ord 'm' (by decide) (by decide) (by decide),
    parseStringBody_ord 's' (by decide) (by decide) (by decide),
    parseStringBody_ord 'g' (by decide) (by decide) (by decide),
    parseStringBody_close]
  rfl

theorem c6_parseValue (K : Nat) (l1 l2 : List Char)
    (h1 : ∀ c ∈ l1, plainChar c = true) (h2 : ∀ c ∈ l2, plainChar c = true) :
    parseValue (K + 3)
      ('\x7b' :: '"' :: 'm' :: 's' :: 'g' :: '"' :: ':' :: '"' ::
        (l1 ++ '\\' :: 'n' :: (l2 ++ '"' :: '\x7d' :: [])))
      = some (.jobj [(['m', 's', 'g'], .jstr (l1 ++ '\n' :: l2))], []) := by
  rw [show K + 3 = (K + 2) + 1 from rfl, parseValue_obrace]
  rw [skipWs_nws '"' _ (by decide)]
  show parseMembers (K + 2)
      ('"' :: 'm' :: 's' :: 'g' :: '"' :: ':' :: '"' ::
        (l1 ++ '\\' :: 'n' :: (l2 ++ '"' :: '\x7d' :: []))) [] = _
  rw [show K + 2 = (K + 1) + 1 from rfl, parseMembers_key, parseStringBody_msg]
  show (match skipWs (':' :: '"' :: (l1 ++ '\\' :: 'n' :: (l2 ++ '"' :: '\x7d' :: []))) with
    | ':' :: r2 =>
      (match parseValue (K + 1) (skipWs r2) with
       | none => none
       | some (v, r3) =>
         match skipWs r3 with
         | ',' :: r4 => parseMembers (K + 1) (skipWs r4) (insertKV [] ['m', 's', 'g'] v)
         | '\x7d' :: r4 => some (JValue.jobj (insertKV [] ['m', 's', 'g'] v), r4)
         | _ => none)
    | _ => none) = _
  rw [skipWs_nws ':' _ (by decide)]
  show (match parseValue (K + 1) (skipWs ('"' :: (l1 ++ '\\' :: 'n' :: (l2 ++ '"' :: '\x7d' :: [])))) with
       | none => none
       | some (v, r3) =>
         match skipWs r3 with
         | ',' :: r4 => parseMembers (K + 1) (skipWs r4) (insertKV [] ['m', 's', 'g'] v)
         | '\x7d' :: r4 => some (JValue.jobj (insertKV [] ['m', 's', 'g'] v), r4)
         | _ => none) = _
  rw [skipWs_nws '"' _ (by decide)]
  rw [show K + 1 = K + 1 from rfl, parseValue_quote]
  rw [c6_hbody l1 l2 h1 h2]
  show (match skipWs ('\x7d' :: []) with
    | ',' :: r4 => parseMembers K (skipWs r4) (insertKV [] ['m', 's', 'g'] (JValue.jstr (l1 ++ '\n' :: l2)))
    | '\x7d' :: r4 => some (JValue.jobj (insertKV [] ['m', 's', 'g'] (JValue.jstr (l1 ++ '\n' :: l2))), r4)
    | _ => none) = _
  rw [skipWs_nws '\x7d' _ (by decide)]
  rfl

theorem preCleanAux_quote (inStr : Bool) (p : Option Char) (cs : List Char)
    (hp : p ≠ some '\\') :
    preCleanAux inStr p ('"' :: cs) = '"' :: preCleanAux (!inStr) (some '"') cs := by
  rw [preCleanAux, if_pos ⟨rfl, hp⟩]

theorem preCleanAux_ord (inStr : Bool) (p : Option Char) (c : Char) (cs : List Char)
    (h1 : c ≠ '"') (h3 : isPreCleanCtrl c = false) :
    preCleanAux inStr p (c :: cs) = c :: preCleanAux inStr (some c) cs := by
  rw [preCleanAux, if_neg (fun hh => h1 hh.1), if_neg ?_]
  rintro ⟨_, hh⟩
  rw [h3] at hh
  exact Bool.false_ne_true hh

theorem preCleanAux_nl (p : Option Char) (cs : List Char) :
    preCleanAux true p ('\n' :: cs) = '\\' :: 'n' :: preCleanAux true (some '\n') cs := by
  rw [preCleanAux, if_neg (by simp), if_pos ⟨rfl, by decide⟩]
  rfl

theorem c6_preClean (l1 l2 : List Char)
    (h1 : ∀ c ∈ l1, plainChar c = true) (h2 : ∀ c ∈ l2, plainChar c = true) :
    preClean
      ('\x7b' :: '"' :: 'm' :: 's' :: 'g' :: '"' :: ':' :: '"' ::
        (l1 ++ '\n' :: (l2 ++ '"' :: '\x7d' :: [])))
      = '\x7b' :: '"' :: 'm' :: 's' :: 'g' :: '"' :: ':' :: '"' ::
        (l1 ++ '\\' :: 'n' :: (l2 ++ '"' :: '\x7d' :: [])) := by
  obtain ⟨q1, hq1, heq1⟩ := preCleanAux_plain l1 h1 true (some '"') (by simp)
    ('\n' :: (l2 ++ '"' :: '\x7d' :: []))
  obtain ⟨q2, hq2, heq2⟩ := preCleanAux_plain l2 h2 true (some '\n') (by simp)
    ('"' :: '\x7d' :: [])
  rw [preClean]
  rw [preCleanAux_ord _ _ '\x7b' _ (by decide) (by decide)]
  rw [preCleanAux_quote _ _ _ (by simp)]
  rw [preCleanAux_ord _ _ 'm' _ (by decide) (by decide)]
  rw [preCleanAux_ord _ _ 's' _ (by decide) (by decide)]
  rw [preCleanAux_ord _ _ 'g' _ (by decide) (by decide)]
  rw [preCleanAux_quote _ _ _ (by simp)]
  rw [preCleanAux_ord _ _ ':' _ (by decide) (by decide)]
  rw [preCleanAux_quote _ _ _ (by simp)]
  simp only [Bool.not_false, Bool.not_true]
  rw [heq1, preCleanAux_nl, heq2]
  rw [preCleanAux_quote _ _ _ hq2]
  rw [preCleanAux_ord _ _ '\x7d' _ (by decide) (by decide)]
  rfl

/-- C6: decoding a raw response whose string value contains an
unescaped literal newline — `{"msg":"L1<RAWNEWLINE>L2"}` for any
fragments of ordinary characters — succeeds, and the result maps `msg`
to the string in which the newline survives as data, not as a JSON
syntax break. -/
theorem parse_json_response_preserves_raw_newline (l1 l2 : List Char)
    (h1 : ∀ c ∈ l1, plainChar c = true) (h2 : ∀ c ∈ l2, plainChar c = true) :
    parseJsonResponse
      ('\x7b' :: '"' :: 'm' :: 's' :: 'g' :: '"' :: ':' :: '"' ::
        (l1 ++ '\n' :: (l2 ++ '"' :: '\x7d' :: [])))
      = .ok (.jobj [(['m', 's', 'g'], .jstr (l1 ++ '\n' :: l2))]) := by
  rw [parseJsonResponse, c6_preClean l1 l2 h1 h2]
  have hlen : 2 * ('\x7b' :: '"' :: 'm' :: 's' :: 'g' :: '"' :: ':' :: '"' ::
      (l1 ++ '\\' :: 'n' :: (l2 ++ '"' :: '\x7d' :: []))).length + 2 =
      (2 * (l1.length + l2.length) + 23) + 3 := by
    simp [List.length_append]
    omega
  have hload : pyLoads ('\x7b' :: '"' :: 'm' :: 's' :: 'g' :: '"' :: ':' :: '"' ::
      (l1 ++ '\\' :: 'n' :: (l2 ++ '"' :: '\x7d' :: []))) =
      some (.jobj [(['m', 's', 'g'], .jstr (l1 ++ '\n' :: l2))]) := by
    rw [pyLoads, hlen]
    rw [skipWs_nws '\x7b' _ (by decide)]
    rw [c6_parseValue (2 * (l1.length + l2.length) + 23) l1 l2 h1 h2]
    rfl
  rw [parseCleaned, hload]
  show digitPhase _ (.jobj [(['m', 's', 'g'], .jstr (l1 ++ '\n' :: l2))]) = _
  rw [digitPhase]
  simp [digitKeyed, pyIsDigitStr]

/-- C6, witness: the documented example, `msg` = `line1`/`line2` around
a raw newline. -/
theorem parse_json_response_preserves_raw_newline_witness :
    (∀ c ∈ ['l', 'i', 'n', 'e', '1'], plainChar c = true) ∧
    parseJsonResponse
      ('\x7b' :: '"' :: 'm' :: 's' :: 'g' :: '"' :: ':' :: '"' ::
        (['l', 'i', 'n', 'e', '1'] ++ '\n' ::
          (['l', 'i', 'n', 'e', '2'] ++ '"' :: '\x7d' :: [])))
      = .ok (.jobj [(['m', 's', 'g'],
          .jstr (['l', 'i', 'n', 'e', '1'] ++ '\n' :: ['l', 'i', 'n', 'e', '2']))]) :=
  ⟨by decide, parse_json_response_preserves_raw_newline _ _ (by decide) (by decide)⟩

end OrgRoamAI
